import Mathlib

/-!
Shallow embedding of the GhostEdit export compositing engine
(`src/main/services/ffmpeg.ts` and `src/main/services/fonts.ts`).

Numbers that the TypeScript source holds in IEEE doubles are modelled as
exact rationals (`ℚ`); the arithmetic the claims exercise (sums, linear
interpolation, `Math.max`, `Math.round`) stays well inside the range where
double arithmetic on the source's inputs is exact or the claims are about
the exact mathematical values.
-/

/-- JavaScript `Math.round`: rounds half up (toward +∞), `Math.round x = ⌊x + 1/2⌋`. -/
def jsRound (q : ℚ) : ℤ := ⌊q + 1/2⌋

/-- JavaScript number: either a finite value (modelled exactly as a rational)
or one of the non-finite values `NaN`, `Infinity`, `-Infinity`. -/
inductive JSNum where
  | num : ℚ → JSNum
  | nan : JSNum
  | inf : JSNum
  | ninf : JSNum
deriving DecidableEq

/-- JavaScript `Number.isFinite`. -/
def JSNum.isFinite : JSNum → Bool
  | .num _ => true
  | _ => false

/-- JavaScript strict `>` on numbers: any comparison involving `NaN` is false. -/
def JSNum.jsGt : JSNum → JSNum → Bool
  | .num a, .num b => decide (b < a)
  | .inf, .num _ => true
  | .inf, .ninf => true
  | .num _, .ninf => true
  | _, _ => false

/-- Finite value of a `JSNum`; junk value 0 for the non-finite cases (every
use below is guarded by an `isFinite` check in the source). -/
def JSNum.toQ : JSNum → ℚ
  | .num q => q
  | _ => 0

-- ── Data model (`ffmpeg.ts` interfaces) ──────────────────────────────────────

/-- Interface `ExportClip` of `ffmpeg.ts`. -/
structure ExportClip where
  filePath : String
  sourceStart : ℚ
  sourceEnd : ℚ
  timelineStart : ℚ
  timelineEnd : ℚ
deriving DecidableEq

/-- Interface `ExportCaptionWord` of `ffmpeg.ts`. -/
structure ExportCaptionWord where
  word : String
  startTime : ℚ
  endTime : ℚ
  xOffset : ℚ
  yAdjustPx : ℚ
deriving DecidableEq

/-- Interface `ExportCaption` of `ffmpeg.ts`. Times are `JSNum` because
`exportVideo` defensively coerces and validates them; `Option` mirrors the
optional (`?`) fields. -/
structure ExportCaption where
  text : String
  startTime : JSNum
  endTime : JSNum
  fontSize : ℚ
  color : String
  background : String
  bold : Bool
  positionY : ℚ
  fontFamily : Option String
  strokeWidth : Option ℚ
  strokeColor : Option String
  highlightColor : Option String
  lineWidthPx : Option ℚ
  words : Option (List ExportCaptionWord)
deriving DecidableEq

/-- Interface `ExportAudioClip` of `ffmpeg.ts` (same shape as `ExportClip`). -/
structure ExportAudioClip where
  filePath : String
  sourceStart : ℚ
  sourceEnd : ℚ
  timelineStart : ℚ
  timelineEnd : ℚ
deriving DecidableEq

/-- Tagged union `ExportEffect` of `ffmpeg.ts`. -/
inductive ExportEffect where
  | pixelate (timelineStart timelineEnd startBlockSize endBlockSize : ℚ)
  | duotone (timelineStart timelineEnd : ℚ) (shadowColor highlightColor : String)
  | ascii (timelineStart timelineEnd cellSize contrast : ℚ)
  | dither (timelineStart timelineEnd levels amount : ℚ)
  | chromaticAberration (timelineStart timelineEnd offsetPx : ℚ)
deriving DecidableEq

/-- Field `timelineEnd`, shared by every variant of the effect union. -/
def ExportEffect.timelineEnd : ExportEffect → ℚ
  | .pixelate _ te _ _ => te
  | .duotone _ te _ _ => te
  | .ascii _ te _ _ => te
  | .dither _ te _ _ => te
  | .chromaticAberration _ te _ => te

/-- Field `timelineStart`, shared by every variant of the effect union. -/
def ExportEffect.timelineStart : ExportEffect → ℚ
  | .pixelate ts _ _ _ => ts
  | .duotone ts _ _ _ => ts
  | .ascii ts _ _ _ => ts
  | .dither ts _ _ _ => ts
  | .chromaticAberration ts _ _ => ts

/-- Interface `ExportJobOptions` of `ffmpeg.ts` (the `onProgress` callback and
`outputPath`/`debug` bookkeeping are modelled separately). -/
structure ExportJobOptions where
  clips : List ExportClip
  audioClips : List ExportAudioClip
  muteVideoAudio : Bool
  captions : List ExportCaption
  effects : List ExportEffect
  width : ℕ
  height : ℕ
  fps : ℚ
  crf : ℕ
deriving DecidableEq

/-- Validity of a job per the data-model invariants of the spec (§3):
`sourceEnd > sourceStart` and `timelineEnd > timelineStart` for clips,
`endTime > startTime` (on finite times) for captions,
`timelineEnd > timelineStart` for effects, and at least one clip. -/
def jobValid (o : ExportJobOptions) : Prop :=
  o.clips ≠ [] ∧
  (∀ c ∈ o.clips, c.sourceStart < c.sourceEnd ∧ c.timelineStart < c.timelineEnd) ∧
  (∀ c ∈ o.captions, c.startTime.isFinite = true ∧ c.endTime.isFinite = true ∧
      c.startTime.toQ < c.endTime.toQ) ∧
  (∀ e ∈ o.effects, e.timelineStart < e.timelineEnd)

instance (o : ExportJobOptions) : Decidable (jobValid o) := by
  unfold jobValid; infer_instance

-- ── Segment encoder (`exportVideo`, per-clip loop) ───────────────────────────

/-- Duration handed to the per-clip segment encode:
`const duration = Math.max(0.01, clip.sourceEnd - clip.sourceStart)`. -/
def segmentDuration (c : ExportClip) : ℚ := max (1/100) (c.sourceEnd - c.sourceStart)

/-- Arguments of the per-segment FFmpeg invocation that determine its output
(seek position, trim duration, scale/crop target, CRF, frame rate), as built
in the per-clip loop of `exportVideo`. -/
structure SegmentEncodeCmd where
  ss : ℚ
  inputPath : String
  t : ℚ
  scaleWidth : ℕ
  scaleHeight : ℕ
  crf : ℕ
  fps : ℚ
  audioStripped : Bool
deriving DecidableEq

/-- Segment encode command for one clip, mirroring the argument list
`['-ss', sourceStart, '-i', filePath, '-t', duration, '-vf', scale/crop, …,
'-crf', '18', …, '-r', fps, '-an', …]` of `exportVideo`. -/
def segmentCmd (clip : ExportClip) (width height : ℕ) (fps : ℚ) : SegmentEncodeCmd :=
  { ss := clip.sourceStart
    inputPath := clip.filePath
    t := segmentDuration clip
    scaleWidth := width
    scaleHeight := height
    crf := 18
    fps := fps
    audioStripped := true }

-- ── Progress reporting (`exportVideo`) ───────────────────────────────────────

/-- Sequence of percentages emitted through `onProgress` in one export job of
`n` clips: `Math.round(((i + 1) / n) * 60)` after each segment, then `70`
after concat, then `100` after the final encode. -/
def progressPercents (n : ℕ) : List ℤ :=
  ((List.range n).map fun (i : ℕ) => jsRound (((i : ℚ) + 1) / (n : ℚ) * 60)) ++ [70, 100]

-- ── Output duration (`exportVideo` segment/concat passes) ────────────────────

/-- Duration of the concatenated intermediate: the segments are trimmed to
`segmentDuration` each and joined by the concat demuxer in order, so (for
source files covering the trimmed ranges) the result lasts their sum.  The
final encode's filters (`enable=`-gated pixel filters and the subtitle
overlay) do not change the video stream's duration. -/
def outputVideoDuration (o : ExportJobOptions) : ℚ :=
  (o.clips.map segmentDuration).sum

/-- Spec-side quantity for the duration claim, following the spec's words:
"max(timelineEnd) across all clips, captions, and effects" (§8), with the
max of the empty family read as 0. -/
def specMaxTimelineEnd (o : ExportJobOptions) : ℚ :=
  ((o.clips.map ExportClip.timelineEnd) ++ (o.captions.map fun c => c.endTime.toQ) ++
    (o.effects.map ExportEffect.timelineEnd)).foldr max 0

/-- Clips tile the timeline contiguously starting at time `t`: each clip
starts where the previous one ended, its timeline span equals its source
span, and that span is at least 0.01 (so `segmentDuration` is exactly the
span). -/
def tilesFrom : ℚ → List ExportClip → Prop
  | _, [] => True
  | t, c :: rest =>
      c.timelineStart = t ∧
      c.timelineEnd - c.timelineStart = c.sourceEnd - c.sourceStart ∧
      1/100 ≤ c.sourceEnd - c.sourceStart ∧
      tilesFrom c.timelineEnd rest

/-- End of the last clip of a tiling that starts at `t` (`t` itself when
there is no clip). -/
def lastTimelineEnd : ℚ → List ExportClip → ℚ
  | t, [] => t
  | _, c :: rest => lastTimelineEnd c.timelineEnd rest

-- ── Caption validation (`exportVideo`) ───────────────────────────────────────

/-- JavaScript `Number(x)` applied to a value that is already a number is the
identity; `exportVideo` applies it to `startTime`/`endTime` defensively. -/
def jsNumber (n : JSNum) : JSNum := n

/-- Coercion step of caption validation:
`{ ...c, startTime: Number(c.startTime), endTime: Number(c.endTime) }`. -/
def coerceCaptionTimes (c : ExportCaption) : ExportCaption :=
  { c with startTime := jsNumber c.startTime, endTime := jsNumber c.endTime }

/-- Filter predicate of caption validation:
`Number.isFinite(c.startTime) && Number.isFinite(c.endTime) && c.endTime > c.startTime`. -/
def captionTimesValid (c : ExportCaption) : Bool :=
  c.startTime.isFinite && c.endTime.isFinite && c.endTime.jsGt c.startTime

/-- Comparator key order of the sort `(a, b) => a.startTime - b.startTime`.
After the validity filter every compared time is finite, so reading the
finite value with `toQ` is exact. -/
def capLE (a b : ExportCaption) : Bool := a.startTime.toQ ≤ b.startTime.toQ

/-- Caption validation of `exportVideo`:
`captions.map(coerce).filter(valid).sort((a, b) => a.startTime - b.startTime)`.
JavaScript's `Array.prototype.sort` is stable and, under this comparator,
produces the stable ascending reordering — which is what `List.mergeSort`
with the corresponding boolean order computes. -/
def validCaptions (captions : List ExportCaption) : List ExportCaption :=
  (((captions.map coerceCaptionTimes).filter captionTimesValid).mergeSort capLE)

-- ── ASS subtitle text (`escapeASSText`, `buildASSFile`) ──────────────────────

/-- Character-level body of `escapeASSText`: the source applies
`.replace(/\{/g, '\\{').replace(/\}/g, '\\}').replace(/\n/g, '\\N')` — three
global single-character replacements whose outputs contain none of the later
targets, so they equal this single pass. -/
def escapeASSChars : List Char → List Char
  | [] => []
  | c :: rest =>
      if c = '{' then '\\' :: '{' :: escapeASSChars rest
      else if c = '}' then '\\' :: '}' :: escapeASSChars rest
      else if c = '\n' then '\\' :: 'N' :: escapeASSChars rest
      else c :: escapeASSChars rest

/-- Function `escapeASSText` of `ffmpeg.ts`. -/
def escapeASSText (text : String) : String := String.mk (escapeASSChars text.data)

/-- Modelled from the spec: the parsing rules of the target subtitle
mini-language's dialogue text (the external render engine, §4.4/§6), which
are not part of this repository.  Visible text is recovered by: an override
block `{...}` is a control code and contributes nothing visible; `\N` is a
line break (recovered here as the newline character it encodes); `\{` and
`\}` are literal braces (the escapes `escapeASSText` relies on); any other
backslash is a literal backslash; every other character is itself.
The flag is true while inside an override block. -/
def parseASSCharsAux : Bool → List Char → List Char
  | _, [] => []
  | true, c :: rest =>
      if c = '}' then parseASSCharsAux false rest else parseASSCharsAux true rest
  | false, c :: rest =>
      if c = '\\' then
        match rest with
        | [] => ['\\']
        | d :: rest' =>
            if d = 'N' then '\n' :: parseASSCharsAux false rest'
            else if d = '{' then '{' :: parseASSCharsAux false rest'
            else if d = '}' then '}' :: parseASSCharsAux false rest'
            else '\\' :: parseASSCharsAux false (d :: rest')
      else if c = '{' then parseASSCharsAux true rest
      else c :: parseASSCharsAux false rest

/-- Visible text reconstructed from an ASS dialogue-text fragment. -/
def parseASSText (s : String) : String := String.mk (parseASSCharsAux false s.data)

/-- JavaScript truthiness of an optional string field (`undefined` and the
empty string are falsy). -/
def truthyOptStr : Option String → Bool
  | none => false
  | some s => !s.isEmpty

/-- Karaoke sweep duration in centiseconds for one word, from `buildASSFile`:
`Math.max(1, Math.round((w.endTime - w.startTime) * 100))`. -/
def kfDuration (w : ExportCaptionWord) : ℤ :=
  max 1 (jsRound ((w.endTime - w.startTime) * 100))

/-- Text portion of one dialogue event of `buildASSFile` (after the common
`\pos(x,y)` tag): either karaoke parts — one `{\kf<cs>}` code per word,
carrying the sweep duration and the escaped word — or a single static
escaped line. -/
inductive ASSEventBody where
  | karaoke (parts : List (ℤ × String))
  | staticLine (text : String)
deriving DecidableEq

/-- Event-text construction of `buildASSFile`:
karaoke iff `cap.words && cap.words.length > 0 && cap.highlightColor`
(all three truthy), else the escaped caption text as one static line. -/
def captionEventBody (cap : ExportCaption) : ASSEventBody :=
  match cap.words with
  | some ws =>
      if 0 < ws.length ∧ truthyOptStr cap.highlightColor then
        .karaoke (ws.map fun w => (kfDuration w, escapeASSText w.word))
      else
        .staticLine (escapeASSText cap.text)
  | none => .staticLine (escapeASSText cap.text)

-- ── Pixelate effect compilation (`exportVideo`) ──────────────────────────────

/-- Time-gated `pixelize` sub-filter: the window `[t0, t1]` of its
`enable=between(t,t0,t1)` gate (`between` is inclusive at both ends) and the
constant integer block size.  The source serializes `t0`/`t1` with
`toFixed(4)`; adjacent sub-filters compute the shared boundary with the same
expression, so the serialized windows stay contiguous. -/
structure PixSubFilter where
  t0 : ℚ
  t1 : ℚ
  blockN : ℤ
deriving DecidableEq

/-- Sixteen sub-filters for one pixelate effect, from the `flatMap` body of
`pixelizeFilters`: step duration `(timelineEnd - timelineStart) / 16`, window
`[start + i·step, start + (i+1)·step]`, block size
`Math.max(2, Math.round(startBlockSize + (endBlockSize - startBlockSize) * (i + 0.5) / 16))`. -/
def pixSubFilters (ts te s e : ℚ) : List PixSubFilter :=
  (List.range 16).map fun (i : ℕ) =>
    { t0 := ts + (i : ℚ) * ((te - ts) / 16)
      t1 := ts + ((i : ℚ) + 1) * ((te - ts) / 16)
      blockN := max 2 (jsRound (s + (e - s) * (((i : ℚ) + 1/2) / 16))) }

/-- Compiled pixelate portion of the filter chain: the source filters the
effects to pixelate ones with `timelineEnd > timelineStart` and flat-maps
each to its 16 sub-filters. -/
def pixelizeFilters (effects : List ExportEffect) : List PixSubFilter :=
  effects.flatMap fun eff =>
    match eff with
    | .pixelate ts te s e => if ts < te then pixSubFilters ts te s e else []
    | _ => []

-- ── Audio mix graph (`exportVideo`) ──────────────────────────────────────────

/-- Clip audio reused as a timed audio source (the object literal built from
each clip when `muteVideoAudio` is false). -/
def clipAsAudio (c : ExportClip) : ExportAudioClip :=
  { filePath := c.filePath
    sourceStart := c.sourceStart
    sourceEnd := c.sourceEnd
    timelineStart := c.timelineStart
    timelineEnd := c.timelineEnd }

/-- All timed audio sources of the final encode:
`[...(muteVideoAudio ? [] : clips as audio), ...audioClips]`. -/
def allTimedAudioClips (o : ExportJobOptions) : List ExportAudioClip :=
  (if o.muteVideoAudio then [] else o.clips.map clipAsAudio) ++ o.audioClips

/-- Delay applied to one timed audio source:
`Math.round(timelineStart * 1000)` milliseconds (`adelay=<ms>|<ms>`). -/
def adelayMs (ac : ExportAudioClip) : ℤ := jsRound (ac.timelineStart * 1000)

/-- Audio portion of the final `filter_complex`: per-source delays, and the
mix stage's `(normalize, dropout_transition)` parameters when one exists
(`none` when a single source goes through `anull` unmixed). -/
structure AudioGraph where
  delays : List ℤ
  mix : Option (ℕ × ℕ)
deriving DecidableEq

/-- Audio graph of the final encode: `none` models the `-an` branch (no
audio stream at all); otherwise one `adelay` input per timed source, and
`amix=inputs=<n>:normalize=0:dropout_transition=0` only when there are at
least two sources. -/
def finalAudioGraph (o : ExportJobOptions) : Option AudioGraph :=
  let acs := allTimedAudioClips o
  if acs.isEmpty then none
  else some { delays := acs.map adelayMs
              mix := if acs.length = 1 then none else some (0, 0) }

/-- Whether the final encode maps an audio stream (`hasAnyTimedAudio` in the
source selects between the `-map [aout]` and `-an` argument lists). -/
def finalEncodeHasAudio (o : ExportJobOptions) : Bool :=
  !(allTimedAudioClips o).isEmpty

-- ── Font resolver (`fonts.ts`) ───────────────────────────────────────────────

/-- Entry of the `FONT_TTF_URLS` table: direct raw-file URL of the regular
weight and, when a separate static bold file exists, of the bold weight
(`bold: null` for variable fonts). -/
structure FontURLEntry where
  regular : String
  bold : Option String
deriving DecidableEq

/-- Prefix `GH` of `fonts.ts`. -/
def ghBase : String := "https://raw.githubusercontent.com/google/fonts/main"

/-- Table `FONT_TTF_URLS` of `fonts.ts`. -/
def fontTTFURLs : List (String × FontURLEntry) :=
  [ ("Inter", ⟨ghBase ++ "/ofl/inter/Inter%5Bopsz%2Cwght%5D.ttf", none⟩),
    ("Roboto", ⟨ghBase ++ "/ofl/roboto/Roboto%5Bwdth%2Cwght%5D.ttf", none⟩),
    ("Open Sans", ⟨ghBase ++ "/ofl/opensans/OpenSans%5Bwdth%2Cwght%5D.ttf", none⟩),
    ("Montserrat", ⟨ghBase ++ "/ofl/montserrat/Montserrat%5Bwght%5D.ttf", none⟩),
    ("Lato", ⟨ghBase ++ "/ofl/lato/Lato-Regular.ttf", some (ghBase ++ "/ofl/lato/Lato-Bold.ttf")⟩),
    ("Poppins", ⟨ghBase ++ "/ofl/poppins/Poppins-Regular.ttf", some (ghBase ++ "/ofl/poppins/Poppins-Bold.ttf")⟩),
    ("Raleway", ⟨ghBase ++ "/ofl/raleway/Raleway%5Bwght%5D.ttf", none⟩),
    ("Oswald", ⟨ghBase ++ "/ofl/oswald/Oswald%5Bwght%5D.ttf", none⟩),
    ("Nunito", ⟨ghBase ++ "/ofl/nunito/Nunito%5Bwght%5D.ttf", none⟩),
    ("Playfair Display", ⟨ghBase ++ "/ofl/playfairdisplay/PlayfairDisplay%5Bwght%5D.ttf", none⟩),
    ("Ubuntu", ⟨ghBase ++ "/ufl/ubuntu/Ubuntu-Regular.ttf", some (ghBase ++ "/ufl/ubuntu/Ubuntu-Bold.ttf")⟩),
    ("Bebas Neue", ⟨ghBase ++ "/ofl/bebasneue/BebasNeue-Regular.ttf", some (ghBase ++ "/ofl/bebasneue/BebasNeue-Regular.ttf")⟩),
    ("Anton", ⟨ghBase ++ "/ofl/anton/Anton-Regular.ttf", some (ghBase ++ "/ofl/anton/Anton-Regular.ttf")⟩),
    ("Dancing Script", ⟨ghBase ++ "/ofl/dancingscript/DancingScript%5Bwght%5D.ttf", none⟩),
    ("Pacifico", ⟨ghBase ++ "/ofl/pacifico/Pacifico-Regular.ttf", some (ghBase ++ "/ofl/pacifico/Pacifico-Regular.ttf")⟩),
    ("Merriweather", ⟨ghBase ++ "/ofl/merriweather/Merriweather%5Bopsz%2Cwdth%2Cwght%5D.ttf", none⟩),
    ("Quicksand", ⟨ghBase ++ "/ofl/quicksand/Quicksand%5Bwght%5D.ttf", none⟩) ]

/-- Lookup `FONT_TTF_URLS[familyName]`. -/
def lookupFontURL (familyName : String) : Option FontURLEntry :=
  (fontTTFURLs.find? fun p => p.1 = familyName).map Prod.snd

/-- Sanitized cache-file stem: `familyName.replace(/\s+/g, '_').toLowerCase()`.
Each maximal run of whitespace becomes a single underscore; the flag carries
whether the previously emitted character came from such a run. -/
def collapseWhitespaceAux : Bool → List Char → List Char
  | _, [] => []
  | prevWs, c :: rest =>
      if c.isWhitespace then
        if prevWs then collapseWhitespaceAux true rest
        else '_' :: collapseWhitespaceAux true rest
      else c.toLower :: collapseWhitespaceAux false rest

/-- Safe cache name of a font family. -/
def safeFontName (familyName : String) : String :=
  String.mk (collapseWhitespaceAux false familyName.data)

/-- Cache path `userData/fonts/<safeName>_<weight>.ttf` (the fonts directory
itself is machine-dependent; the constant stands for its path). -/
def fontsDirPath : String := "userData/fonts"

/-- Cache file path used by `downloadGoogleFont` for a family and weight. -/
def fontCachePath (familyName : String) (weight : ℕ) : String :=
  fontsDirPath ++ "/" ++ safeFontName familyName ++ "_" ++ toString weight ++ ".ttf"

/-- Function `getSystemFontPath` of `fonts.ts`. -/
def getSystemFontPath (bold : Bool) : String :=
  if bold then "C:/Windows/Fonts/arialbd.ttf" else "C:/Windows/Fonts/arial.ttf"

/-- Outcome environment for one export's font network and cache state.  Each
field answers what the filesystem/network does for a given family and weight:
`cacheSize` the size of an existing cached file (`none` when absent);
`ghDownload` the size of a completed GitHub raw download for a URL (`none`
when the request fails); `cssAttempt` the size of a completed download via
the i-th CSS-API attempt (UA-major order over the 2 user agents × 2 CSS
URLs; `none` when the fetch fails, the CSS has no usable font URL, or the
file download fails — all of which make the loop continue identically). -/
structure FontNetEnv where
  cacheSize : String → ℕ → Option ℕ
  ghDownload : String → Option ℕ
  cssAttempt : String → ℕ → ℕ → Option ℕ

/-- Function `downloadGoogleFont` of `fonts.ts`, over a `FontNetEnv`:
check the cache (a file of at most 10000 bytes is treated as corrupt and
discarded); try the GitHub raw URL when the table has one for this weight
(`bold: null` skips straight to the CSS API); then try the four CSS-API
attempts in order; sizes of at most 10000 bytes are rejected everywhere.
An exhausted fallback chain throws — modelled as `Except.error`. -/
def downloadGoogleFont (env : FontNetEnv) (familyName : String) (bold : Bool) :
    Except String String :=
  let weight : ℕ := if bold then 700 else 400
  let fontPath := fontCachePath familyName weight
  let cacheHit :=
    match env.cacheSize familyName weight with
    | some size => decide (10000 < size)
    | none => false
  if cacheHit then .ok fontPath
  else
    let ghUrl : Option String :=
      match lookupFontURL familyName with
      | none => none
      | some entry => if bold then entry.bold else some entry.regular
    let ghHit :=
      match ghUrl with
      | some url =>
          match env.ghDownload url with
          | some size => decide (10000 < size)
          | none => false
      | none => false
    if ghHit then .ok fontPath
    else
      let cssHit := (List.range 4).any fun i =>
        match env.cssAttempt familyName weight i with
        | some size => decide (10000 < size)
        | none => false
      if cssHit then .ok fontPath
      else .error ("Could not download TTF for " ++ familyName)

/-- Function `resolveFontPath` of `fonts.ts`: no family means the system
font; a thrown download is caught, a failed bold request is retried as
regular, and any remaining failure falls back to the system font. -/
def resolveFontPath (env : FontNetEnv) (familyName : Option String) (bold : Bool) :
    Except String String :=
  match familyName with
  | none => .ok (getSystemFontPath bold)
  | some fam =>
      match downloadGoogleFont env fam bold with
      | .ok p => .ok p
      | .error _ =>
          if bold then
            match downloadGoogleFont env fam false with
            | .ok p => .ok p
            | .error _ => .ok (getSystemFontPath bold)
          else .ok (getSystemFontPath bold)

/-- Concrete outcome environment for the C3 witness: empty cache, GitHub
down, CSS API serving only regular (weight 400) files. -/
def fontEnvBoldFails : FontNetEnv :=
  { cacheSize := fun _ _ => none
    ghDownload := fun _ => none
    cssAttempt := fun _ w _ => if w = 400 then some 20000 else none }


-- ── Shared lemmas about `jsRound` ────────────────────────────────────────────

theorem jsRound_mono {a b : ℚ} (h : a ≤ b) : jsRound a ≤ jsRound b := by
  unfold jsRound
  exact Int.floor_le_floor (by linarith)

theorem jsRound_close (q : ℚ) : |(jsRound q : ℚ) - q| ≤ 1/2 := by
  unfold jsRound
  rw [abs_le]
  constructor
  · have := Int.sub_one_lt_floor (q + 1/2)
    linarith
  · have := Int.floor_le (q + 1/2)
    linarith

theorem jsRound_intCast (z : ℤ) : jsRound (z : ℚ) = z := by
  unfold jsRound
  rw [Int.floor_eq_iff]
  constructor <;> [push_cast; push_cast] <;> linarith

-- ── C10: segment encode duration ─────────────────────────────────────────────

/-- C10: for every clip, the duration passed to the segment encode is
`max(0.01, sourceEnd - sourceStart)`; it is always at least 0.01 (hence
positive, so even a clip violating `sourceEnd > sourceStart` is encoded as a
minimum 0.01-second segment instead of aborting with a zero or negative
duration), and on such a violating clip it is exactly 0.01. -/
theorem segmentCmd_duration_clamped (clip : ExportClip) (w h : ℕ) (fps : ℚ) :
    (segmentCmd clip w h fps).t = max (1/100) (clip.sourceEnd - clip.sourceStart) ∧
    1/100 ≤ (segmentCmd clip w h fps).t ∧
    0 < (segmentCmd clip w h fps).t ∧
    (clip.sourceEnd ≤ clip.sourceStart → (segmentCmd clip w h fps).t = 1/100) := by
  refine ⟨rfl, le_max_left _ _, lt_of_lt_of_le (by norm_num) (le_max_left _ _), fun hbad => ?_⟩
  simp only [segmentCmd, segmentDuration]
  rw [max_eq_left (by linarith)]

/-- C10 witness: a clip with `sourceEnd < sourceStart` still gets the
0.01-second minimum duration. -/
theorem segmentCmd_duration_clamped_witness :
    ((⟨"a.mp4", 5, 2, 0, 3⟩ : ExportClip).sourceEnd ≤
        (⟨"a.mp4", 5, 2, 0, 3⟩ : ExportClip).sourceStart) ∧
    (segmentCmd ⟨"a.mp4", 5, 2, 0, 3⟩ 1920 1080 30).t = 1/100 :=
  ⟨by norm_num,
   (segmentCmd_duration_clamped ⟨"a.mp4", 5, 2, 0, 3⟩ 1920 1080 30).2.2.2 (by norm_num)⟩

-- ── C9: progress percentages are non-decreasing ──────────────────────────────

theorem progress_segment_le_60 {n i : ℕ} (hn : 0 < n) (hi : i < n) :
    jsRound (((i : ℚ) + 1) / n * 60) ≤ 60 := by
  have h60 : jsRound ((60 : ℤ) : ℚ) = 60 := jsRound_intCast 60
  have hle : ((i : ℚ) + 1) / n * 60 ≤ 60 := by
    have hn' : (0 : ℚ) < n := by exact_mod_cast hn
    have : ((i : ℚ) + 1) ≤ n := by exact_mod_cast hi
    have h1 : ((i : ℚ) + 1) / n ≤ 1 := by
      rw [div_le_one hn']
      exact this
    nlinarith
  calc jsRound (((i : ℚ) + 1) / n * 60) ≤ jsRound ((60 : ℤ) : ℚ) := by
        exact jsRound_mono (by push_cast; linarith)
    _ = 60 := h60

/-- C9: within one export job of `n >= 1` clips, the emitted progress
percentages are the list `round((i+1)/n*60)` for `i = 0..n-1` (each at most
60), followed by 70, followed by 100, and this sequence is non-decreasing. -/
theorem progressPercents_monotone (n : ℕ) (hn : 0 < n) :
    progressPercents n =
      ((List.range n).map fun (i : ℕ) => jsRound (((i : ℚ) + 1) / (n : ℚ) * 60)) ++ [70, 100] ∧
    (∀ i : ℕ, i < n → jsRound (((i : ℚ) + 1) / (n : ℚ) * 60) ≤ 60) ∧
    List.Chain' (· ≤ ·) (progressPercents n) := by
  refine ⟨rfl, fun i hi => progress_segment_le_60 hn hi, ?_⟩
  have hn' : (0 : ℚ) < n := by exact_mod_cast hn
  have hlenmap : ((List.range n).map fun (i : ℕ) =>
      jsRound (((i : ℚ) + 1) / (n : ℚ) * 60)).length = n := by
    simp
  have hlen : (progressPercents n).length = n + 2 := by
    simp [progressPercents]
  rw [List.chain'_iff_get]
  intro i hilt
  rw [hlen] at hilt
  rw [List.get_eq_getElem, List.get_eq_getElem]
  simp only [progressPercents]
  by_cases h1 : i + 1 < n
  · rw [List.getElem_append_left (by rw [hlenmap]; omega),
      List.getElem_append_left (by rw [hlenmap]; omega),
      List.getElem_map, List.getElem_map, List.getElem_range, List.getElem_range]
    apply jsRound_mono
    gcongr
    exact_mod_cast Nat.le_succ i
  · by_cases h2 : i < n
    · rw [List.getElem_append_left (by rw [hlenmap]; omega),
        List.getElem_append_right (by rw [hlenmap]; omega),
        List.getElem_map, List.getElem_range]
      have e1 : i + 1 - ((List.range n).map fun (i : ℕ) =>
          jsRound (((i : ℚ) + 1) / (n : ℚ) * 60)).length = 0 := by
        rw [hlenmap]; omega
      simp only [e1]
      exact le_trans (progress_segment_le_60 hn h2) (by norm_num)
    · have hi : i = n := by omega
      rw [List.getElem_append_right (by rw [hlenmap]; omega),
        List.getElem_append_right (by rw [hlenmap]; omega)]
      have e1 : i - ((List.range n).map fun (i : ℕ) =>
          jsRound (((i : ℚ) + 1) / (n : ℚ) * 60)).length = 0 := by
        rw [hlenmap]; omega
      have e2 : i + 1 - ((List.range n).map fun (i : ℕ) =>
          jsRound (((i : ℚ) + 1) / (n : ℚ) * 60)).length = 1 := by
        rw [hlenmap]; omega
      simp only [e1, e2]
      norm_num

/-- C9 witness: the full progress sequence for a three-clip job. -/
theorem progressPercents_monotone_witness :
    0 < 3 ∧ List.Chain' (· ≤ ·) (progressPercents 3) :=
  ⟨by norm_num, (progressPercents_monotone 3 (by norm_num)).2.2⟩

-- ── C6: audio delay/mix graph ────────────────────────────────────────────────

/-- C6: the final encode's audio graph has one delayed input per timed audio
source (video-clip audio when not muted, plus explicit audio clips), each
delayed by `round(timelineStart * 1000)` ms; with exactly one source there
is no mix stage, with several the mix runs with `normalize=0` and
`dropout_transition=0`, and with none the final encode carries no audio
stream at all. -/
theorem finalAudioGraph_delay_mix_spec (o : ExportJobOptions) :
    (allTimedAudioClips o).length =
      (if o.muteVideoAudio then 0 else o.clips.length) + o.audioClips.length ∧
    (finalAudioGraph o = none ↔ allTimedAudioClips o = []) ∧
    (finalEncodeHasAudio o = false ↔ allTimedAudioClips o = []) ∧
    (∀ g, finalAudioGraph o = some g →
      g.delays = (allTimedAudioClips o).map adelayMs ∧
      g.delays.length = (allTimedAudioClips o).length ∧
      ((allTimedAudioClips o).length = 1 → g.mix = none) ∧
      (2 ≤ (allTimedAudioClips o).length → g.mix = some (0, 0))) := by
  refine ⟨?_, ?_, ?_, ?_⟩
  · simp only [allTimedAudioClips, List.length_append]
    split <;> simp
  · rw [finalAudioGraph]
    rcases h : allTimedAudioClips o with _ | ⟨a, rest⟩ <;> simp
  · rw [finalEncodeHasAudio]
    rcases h : allTimedAudioClips o with _ | ⟨a, rest⟩ <;> simp
  · intro g hg
    rw [finalAudioGraph] at hg
    rcases h : allTimedAudioClips o with _ | ⟨a, rest⟩
    · rw [h] at hg
      simp at hg
    · rw [h] at hg
      simp only [List.isEmpty_cons, if_neg Bool.false_ne_true, Option.some_inj] at hg
      subst hg
      refine ⟨rfl, by simp, fun h1 => ?_, fun h2 => ?_⟩
      · simp only [if_pos h1]
      · have : ¬(a :: rest).length = 1 := by omega
        simp only [if_neg this]

/-- C6 witness (spec scenario): muted video audio plus one explicit audio
clip starting at 2.5 s gives exactly one audio input, delayed by 2500 ms,
with no mix stage. -/
theorem finalAudioGraph_single_source_witness :
    finalAudioGraph
        ⟨[⟨"v.mp4", 0, 5, 0, 5⟩], [⟨"music.mp3", 0, 3, 5/2, 11/2⟩], true, [], [],
          1920, 1080, 30, 18⟩ =
      some ⟨[2500], none⟩ := by
  have h := (finalAudioGraph_delay_mix_spec
    ⟨[⟨"v.mp4", 0, 5, 0, 5⟩], [⟨"music.mp3", 0, 3, 5/2, 11/2⟩], true, [], [],
      1920, 1080, 30, 18⟩).2.2.2
  rcases hg : finalAudioGraph
      ⟨[⟨"v.mp4", 0, 5, 0, 5⟩], [⟨"music.mp3", 0, 3, 5/2, 11/2⟩], true, [], [],
        1920, 1080, 30, 18⟩ with _ | g
  · exact absurd hg (by rw [finalAudioGraph]; simp [allTimedAudioClips])
  · obtain ⟨hd, _, hone, _⟩ := h g hg
    have hacs : allTimedAudioClips
        ⟨[⟨"v.mp4", 0, 5, 0, 5⟩], [⟨"music.mp3", 0, 3, 5/2, 11/2⟩], true, [], [],
          1920, 1080, 30, 18⟩ = [⟨"music.mp3", 0, 3, 5/2, 11/2⟩] := by
      simp [allTimedAudioClips]
    rw [hacs] at hd hone
    have hmix := hone (by simp)
    have hdel : g.delays = [2500] := by
      rw [hd]
      simp only [List.map_cons, List.map_nil]
      congr 1
      show adelayMs ⟨"music.mp3", 0, 3, 5/2, 11/2⟩ = 2500
      unfold adelayMs jsRound
      norm_num
    have hgeq : g = ⟨[2500], none⟩ := by
      rcases g with ⟨gd, gm⟩
      simp only [AudioGraph.mk.injEq]
      exact ⟨hdel, hmix⟩
    rw [hgeq]

-- ── C3: font resolution never throws and always falls back ───────────────────

theorem downloadGoogleFont_ok_shape (env : FontNetEnv) :
    ∀ fam bold p, downloadGoogleFont env fam bold = .ok p →
      ∃ w, p = fontCachePath fam w := by
  intro fam bold p hok
  unfold downloadGoogleFont at hok
  split at hok
  all_goals dsimp only at hok
  all_goals repeat' split at hok
  all_goals first
    | exact ⟨_, (Except.ok.inj hok).symm⟩
    | exact absurd hok (by simp)

/-- C3: `resolveFontPath` never throws and always returns a font file path
(either the cache path of some family/weight or the system font path); with
no family it returns the system regular/bold path; when the bold download
chain fails entirely it retries the family as regular; and when everything
fails it returns the system font path. -/
theorem resolveFontPath_never_throws_fallback (env : FontNetEnv) :
    (∀ bold, resolveFontPath env none bold = .ok (getSystemFontPath bold)) ∧
    (∀ fam bold, ∃ p, resolveFontPath env (some fam) bold = .ok p ∧
      (p = getSystemFontPath bold ∨ ∃ f w, p = fontCachePath f w)) ∧
    (∀ fam e p, downloadGoogleFont env fam true = .error e →
      downloadGoogleFont env fam false = .ok p →
      resolveFontPath env (some fam) true = .ok p) ∧
    (∀ fam bold e e', downloadGoogleFont env fam bold = .error e →
      downloadGoogleFont env fam false = .error e' →
      resolveFontPath env (some fam) bold = .ok (getSystemFontPath bold)) := by
  refine ⟨fun bold => rfl, ?_, ?_, ?_⟩
  · intro fam bold
    rcases hb : downloadGoogleFont env fam bold with e | p
    · rcases bold
      · exact ⟨getSystemFontPath false, by simp [resolveFontPath, hb], Or.inl rfl⟩
      · rcases hr : downloadGoogleFont env fam false with e2 | p2
        · exact ⟨getSystemFontPath true, by simp [resolveFontPath, hb, hr], Or.inl rfl⟩
        · obtain ⟨w, hw⟩ := downloadGoogleFont_ok_shape env fam false p2 hr
          exact ⟨p2, by simp [resolveFontPath, hb, hr], Or.inr ⟨fam, w, hw⟩⟩
    · obtain ⟨w, hw⟩ := downloadGoogleFont_ok_shape env fam bold p hb
      exact ⟨p, by simp [resolveFontPath, hb], Or.inr ⟨fam, w, hw⟩⟩
  · intro fam e p herr hok
    simp [resolveFontPath, herr, hok]
  · intro fam bold e e2 herr herr2
    rcases bold
    · simp [resolveFontPath, herr]
    · simp [resolveFontPath, herr, herr2]

/-- C3 witness: for the family Lato with the bold chain failing entirely and
the regular chain succeeding, `resolveFontPath` retries as regular and
returns the regular cache path without throwing. -/
theorem resolveFontPath_fallback_witness :
    downloadGoogleFont fontEnvBoldFails "Lato" true =
      .error "Could not download TTF for Lato" ∧
    downloadGoogleFont fontEnvBoldFails "Lato" false =
      .ok (fontCachePath "Lato" 400) ∧
    resolveFontPath fontEnvBoldFails (some "Lato") true =
      .ok (fontCachePath "Lato" 400) :=
  have h1 : downloadGoogleFont fontEnvBoldFails "Lato" true =
      .error "Could not download TTF for Lato" := by rfl
  have h2 : downloadGoogleFont fontEnvBoldFails "Lato" false =
      .ok (fontCachePath "Lato" 400) := by rfl
  ⟨h1, h2,
    (resolveFontPath_never_throws_fallback fontEnvBoldFails).2.2.1 "Lato"
      "Could not download TTF for Lato" (fontCachePath "Lato" 400) h1 h2⟩

-- ── C2: caption validation ───────────────────────────────────────────────────

theorem capLE_trans : ∀ a b c : ExportCaption,
    capLE a b = true → capLE b c = true → capLE a c = true := by
  intro a b c hab hbc
  simp only [capLE, decide_eq_true_eq] at *
  exact le_trans hab hbc

theorem capLE_total : ∀ a b : ExportCaption, (capLE a b || capLE b a) = true := by
  intro a b
  simp only [capLE, Bool.or_eq_true, decide_eq_true_eq]
  exact le_total _ _

/-- C2: caption validation coerces the times, keeps exactly the captions with
finite, positive duration, sorts ascending by start time, and is the
identity on a list that is already valid and sorted. -/
theorem validCaptions_sound_sorted_idempotent (cs : List ExportCaption) :
    validCaptions cs =
      ((cs.map coerceCaptionTimes).filter captionTimesValid).mergeSort capLE ∧
    (validCaptions cs).Perm ((cs.map coerceCaptionTimes).filter captionTimesValid) ∧
    (∀ c ∈ validCaptions cs, captionTimesValid c = true) ∧
    List.Pairwise (fun a b => capLE a b = true) (validCaptions cs) ∧
    ((∀ c ∈ cs, captionTimesValid c = true) →
      List.Pairwise (fun a b => capLE a b = true) cs →
      validCaptions cs = cs) := by
  have hperm : (validCaptions cs).Perm
      ((cs.map coerceCaptionTimes).filter captionTimesValid) :=
    List.mergeSort_perm _ capLE
  refine ⟨rfl, hperm, ?_, ?_, ?_⟩
  · intro c hc
    have hmem := hperm.mem_iff.mp hc
    exact (List.mem_filter.mp hmem).2
  · exact List.sorted_mergeSort capLE_trans capLE_total _
  · intro hall hsort
    have hcoerce : cs.map coerceCaptionTimes = cs := by
      have : coerceCaptionTimes = id := funext fun c => rfl
      rw [this, List.map_id]
    unfold validCaptions
    rw [hcoerce, List.filter_eq_self.mpr hall]
    exact List.mergeSort_of_sorted hsort

/-- C2 witness: a two-caption list that is already valid and sorted is
returned unchanged by validation. -/
theorem validCaptions_idempotent_witness :
    (∀ c ∈ [(⟨"first", .num 1, .num 2, 32, "white", "black", false, 85,
          none, none, none, none, none, none⟩ : ExportCaption),
        ⟨"second", .num 3, .num 4, 32, "white", "black", false, 85,
          none, none, none, none, none, none⟩], captionTimesValid c = true) ∧
    List.Pairwise (fun a b => capLE a b = true)
      [(⟨"first", .num 1, .num 2, 32, "white", "black", false, 85,
          none, none, none, none, none, none⟩ : ExportCaption),
        ⟨"second", .num 3, .num 4, 32, "white", "black", false, 85,
          none, none, none, none, none, none⟩] ∧
    validCaptions
        [(⟨"first", .num 1, .num 2, 32, "white", "black", false, 85,
            none, none, none, none, none, none⟩ : ExportCaption),
          ⟨"second", .num 3, .num 4, 32, "white", "black", false, 85,
            none, none, none, none, none, none⟩] =
      [(⟨"first", .num 1, .num 2, 32, "white", "black", false, 85,
          none, none, none, none, none, none⟩ : ExportCaption),
        ⟨"second", .num 3, .num 4, 32, "white", "black", false, 85,
          none, none, none, none, none, none⟩] :=
  ⟨by decide, by decide,
    (validCaptions_sound_sorted_idempotent _).2.2.2.2 (by decide) (by decide)⟩

-- ── C8: karaoke needs words AND a highlight color ────────────────────────────

/-- C8 counterexample: a caption with a non-empty `words` array but no
`highlightColor` renders as a single static line — no per-word
timed-highlight codes — refuting "non-empty words array implies karaoke". -/
theorem captionEventBody_words_without_highlight :
    (⟨"hello world", .num 1, .num 2, 32, "white", "black", false, 85,
        none, none, none, none, none,
        some [⟨"hello", 1, 3/2, 0, 0⟩, ⟨"world", 3/2, 2, 40, 0⟩]⟩ :
      ExportCaption).words = some [⟨"hello", 1, 3/2, 0, 0⟩, ⟨"world", 3/2, 2, 40, 0⟩] ∧
    captionEventBody
        ⟨"hello world", .num 1, .num 2, 32, "white", "black", false, 85,
          none, none, none, none, none,
          some [⟨"hello", 1, 3/2, 0, 0⟩, ⟨"world", 3/2, 2, 40, 0⟩]⟩ =
      .staticLine (escapeASSText "hello world") ∧
    ∀ parts, captionEventBody
        ⟨"hello world", .num 1, .num 2, 32, "white", "black", false, 85,
          none, none, none, none, none,
          some [⟨"hello", 1, 3/2, 0, 0⟩, ⟨"world", 3/2, 2, 40, 0⟩]⟩ ≠
      .karaoke parts := by
  refine ⟨rfl, rfl, fun parts h => ?_⟩
  simp only [captionEventBody, truthyOptStr, List.length_cons, and_false,
    if_false] at h
  exact absurd h (by simp [captionEventBody, truthyOptStr])

/-- C8 (amended): a caption gets karaoke codes — one `\kf` per word, with
sweep duration `max(1, round(100 * (endTime - startTime)))` centiseconds —
exactly when its `words` array is non-empty AND its `highlightColor` is set
(truthy); otherwise (words absent, empty, or highlight missing) it renders
as a single static escaped line. -/
theorem captionEventBody_karaoke_spec (cap : ExportCaption) :
    (∀ ws, cap.words = some ws → ws ≠ [] → truthyOptStr cap.highlightColor = true →
      captionEventBody cap =
        .karaoke (ws.map fun w => (kfDuration w, escapeASSText w.word)) ∧
      (ws.map fun w => (kfDuration w, escapeASSText w.word)).length = ws.length ∧
      ∀ w ∈ ws, kfDuration w = max 1 (jsRound ((w.endTime - w.startTime) * 100))) ∧
    (cap.words = none → captionEventBody cap = .staticLine (escapeASSText cap.text)) ∧
    (truthyOptStr cap.highlightColor = false →
      captionEventBody cap = .staticLine (escapeASSText cap.text)) ∧
    (cap.words = some [] → captionEventBody cap = .staticLine (escapeASSText cap.text)) := by
  refine ⟨?_, ?_, ?_, ?_⟩
  · intro ws hws hne htruthy
    have hlen : 0 < ws.length := List.length_pos.mpr hne
    refine ⟨?_, by simp, fun w _ => rfl⟩
    simp only [captionEventBody, hws]
    rw [if_pos ⟨hlen, htruthy⟩]
  · intro hnone
    simp only [captionEventBody, hnone]
  · intro hfalse
    simp only [captionEventBody]
    rcases hws : cap.words with _ | ws
    · rfl
    · dsimp only
      rw [if_neg]
      rintro ⟨-, htr⟩
      rw [hfalse] at htr
      exact Bool.false_ne_true htr
  · intro hempty
    simp only [captionEventBody, hempty]
    norm_num

/-- C8 witness: a two-word caption with a highlight color compiles to two
karaoke parts with the expected sweep durations. -/
theorem captionEventBody_karaoke_witness :
    (⟨"hi there", .num 1, .num 2, 32, "white", "black", false, 85,
        none, none, none, some "#ffcc00", none,
        some [⟨"hi", 1, 3/2, 0, 0⟩, ⟨"there", 3/2, 2, 30, 0⟩]⟩ :
      ExportCaption).words = some [⟨"hi", 1, 3/2, 0, 0⟩, ⟨"there", 3/2, 2, 30, 0⟩] ∧
    captionEventBody
        ⟨"hi there", .num 1, .num 2, 32, "white", "black", false, 85,
          none, none, none, some "#ffcc00", none,
          some [⟨"hi", 1, 3/2, 0, 0⟩, ⟨"there", 3/2, 2, 30, 0⟩]⟩ =
      .karaoke
        ([⟨"hi", 1, 3/2, 0, 0⟩, ⟨"there", 3/2, 2, 30, 0⟩].map fun w =>
          (kfDuration w, escapeASSText w.word)) :=
  ⟨rfl,
    ((captionEventBody_karaoke_spec _).1 _ rfl (by simp) (by decide)).1⟩

-- ── C7: ASS text escaping ────────────────────────────────────────────────────

theorem parseASS_escapeASS_chars (l : List Char) (h : '\\' ∉ l) :
    parseASSCharsAux false (escapeASSChars l) = l := by
  induction l with
  | nil => rfl
  | cons c rest ih =>
    have hc : c ≠ '\\' := by
      intro hh
      exact h (hh ▸ List.mem_cons_self c rest)
    have hrest : '\\' ∉ rest := fun hh => h (List.mem_cons_of_mem c hh)
    have ih2 := ih hrest
    by_cases h1 : c = '{'
    · subst h1
      have he : escapeASSChars ('{' :: rest) = '\\' :: '{' :: escapeASSChars rest := by
        simp [escapeASSChars]
      rw [he, parseASSCharsAux.eq_def]
      simp [ih2]
    · by_cases h2 : c = '}'
      · subst h2
        have he : escapeASSChars ('}' :: rest) = '\\' :: '}' :: escapeASSChars rest := by
          simp [escapeASSChars]
        rw [he, parseASSCharsAux.eq_def]
        simp [ih2]
      · by_cases h3 : c = '\n'
        · subst h3
          have he : escapeASSChars ('\n' :: rest) = '\\' :: 'N' :: escapeASSChars rest := by
            simp [escapeASSChars]
          rw [he, parseASSCharsAux.eq_def]
          simp [ih2]
        · have he : escapeASSChars (c :: rest) = c :: escapeASSChars rest := by
            simp [escapeASSChars, h1, h2, h3]
          rw [he, parseASSCharsAux.eq_def]
          simp [hc, h1, ih2]

/-- C7 counterexample: `escapeASSText` leaves the backslash — one of the
claim's listed characters — unescaped, so it is not injective (the text
backslash-N collides with the newline text) and the escaped form of a text
containing a backslash does not parse back to the original. -/
theorem escapeASSText_collision_counterexample :
    escapeASSText "\\N" = escapeASSText "\n" ∧
    ("\\N" : String) ≠ "\n" ∧
    '\\' ∈ ("a\\Nb" : String).data ∧
    parseASSText (escapeASSText "a\\Nb") ≠ "a\\Nb" :=
  ⟨rfl, by decide, by decide, by decide⟩

/-- C7 (amended): for caption texts containing no backslash — in particular
texts containing any of the characters quote, double quote, colon, comma,
square brackets and percent — the escaping round-trips through the subtitle
mini-language's parsing rules and is injective; a text containing a
backslash is exempt (see the counterexample). -/
theorem escapeASSText_roundTrip_no_backslash (t : String) (h : '\\' ∉ t.data) :
    parseASSText (escapeASSText t) = t ∧
    (∀ t2 : String, '\\' ∉ t2.data → escapeASSText t = escapeASSText t2 → t = t2) := by
  have hrt : ∀ s : String, '\\' ∉ s.data → parseASSText (escapeASSText s) = s := by
    intro s hs
    show String.mk (parseASSCharsAux false (escapeASSChars s.data)) = s
    rw [parseASS_escapeASS_chars s.data hs]
  refine ⟨hrt t h, fun t2 h2 heq => ?_⟩
  have hcong := congrArg parseASSText heq
  rw [hrt t h, hrt t2 h2] at hcong
  exact hcong

/-- C7 witness: a text containing quote, double quote, colon, comma,
brackets and percent survives the escape/parse round-trip unchanged. -/
theorem escapeASSText_roundTrip_witness :
    '\\' ∉ ("He said: \"hi\", 100% ['ok']" : String).data ∧
    parseASSText (escapeASSText "He said: \"hi\", 100% ['ok']") =
      "He said: \"hi\", 100% ['ok']" :=
  ⟨by decide,
    (escapeASSText_roundTrip_no_backslash "He said: \"hi\", 100% ['ok']" (by decide)).1⟩

-- ── C4/C5: pixelate sub-filters ──────────────────────────────────────────────

theorem pixSubFilters_length (ts te s e : ℚ) :
    (pixSubFilters ts te s e).length = 16 := by
  simp [pixSubFilters]

theorem pixSubFilters_get (ts te s e : ℚ) (i : ℕ)
    (hi : i < (pixSubFilters ts te s e).length) :
    (pixSubFilters ts te s e).get ⟨i, hi⟩ =
      ⟨ts + (i : ℚ) * ((te - ts) / 16), ts + ((i : ℚ) + 1) * ((te - ts) / 16),
        max 2 (jsRound (s + (e - s) * (((i : ℚ) + 1/2) / 16)))⟩ := by
  simp [pixSubFilters, List.get_eq_getElem]

theorem pixSubFilters_mem_iff (ts te s e : ℚ) (f : PixSubFilter) :
    f ∈ pixSubFilters ts te s e ↔ ∃ i : ℕ, i < 16 ∧
      f = ⟨ts + (i : ℚ) * ((te - ts) / 16), ts + ((i : ℚ) + 1) * ((te - ts) / 16),
        max 2 (jsRound (s + (e - s) * (((i : ℚ) + 1/2) / 16)))⟩ := by
  simp only [pixSubFilters, List.mem_map, List.mem_range]
  constructor
  · rintro ⟨i, hi, rfl⟩
    exact ⟨i, hi, rfl⟩
  · rintro ⟨i, hi, rfl⟩
    exact ⟨i, hi, rfl⟩

/-- C4: a pixelate effect with `timelineEnd > timelineStart` compiles to
exactly 16 time-gated sub-filters; their windows all have length
`(te-ts)/16`, each window starts where the previous one ends, the first
starts at `timelineStart` and the last ends at `timelineEnd`, every time in
`[timelineStart, timelineEnd)` is covered by some window, and the i-th block
size is the linear interpolation between the start and end sizes at the
midpoint `(i+0.5)/16`, rounded to nearest and clamped to at least 2. -/
theorem pixelate_sixteen_subfilters_cover (ts te s e : ℚ) (h : ts < te) :
    (pixSubFilters ts te s e).length = 16 ∧
    (∀ f ∈ pixSubFilters ts te s e, f.t1 - f.t0 = (te - ts) / 16) ∧
    (∀ hl : 0 < (pixSubFilters ts te s e).length,
      ((pixSubFilters ts te s e).get ⟨0, hl⟩).t0 = ts) ∧
    (∀ hl : 15 < (pixSubFilters ts te s e).length,
      ((pixSubFilters ts te s e).get ⟨15, hl⟩).t1 = te) ∧
    List.Chain' (fun f g => f.t1 = g.t0) (pixSubFilters ts te s e) ∧
    (∀ t : ℚ, ts ≤ t → t < te → ∃ f ∈ pixSubFilters ts te s e, f.t0 ≤ t ∧ t ≤ f.t1) ∧
    (∀ f ∈ pixSubFilters ts te s e, ∃ i : ℕ, i < 16 ∧
      f.t0 = ts + (i : ℚ) * ((te - ts) / 16) ∧
      f.t1 = ts + ((i : ℚ) + 1) * ((te - ts) / 16) ∧
      f.blockN = max 2 (jsRound (s + (e - s) * (((i : ℚ) + 1/2) / 16)))) ∧
    pixelizeFilters [.pixelate ts te s e] = pixSubFilters ts te s e := by
  refine ⟨pixSubFilters_length ts te s e, ?_, ?_, ?_, ?_, ?_, ?_, ?_⟩
  · intro f hf
    obtain ⟨i, hi, rfl⟩ := (pixSubFilters_mem_iff ts te s e f).mp hf
    ring
  · intro hl
    rw [pixSubFilters_get]
    norm_num
  · intro hl
    rw [pixSubFilters_get]
    push_cast
    ring_nf
  · rw [List.chain'_iff_get]
    intro i hilen
    rw [pixSubFilters_get, pixSubFilters_get]
    push_cast
    ring_nf
  · intro t ht0 ht1
    have hstep : 0 < (te - ts) / 16 := by
      apply div_pos <;> linarith
    set d : ℚ := (t - ts) / ((te - ts) / 16) with hd
    have hd0 : 0 ≤ d := div_nonneg (by linarith) hstep.le
    have hd16 : d < 16 := by
      rw [hd, div_lt_iff₀ hstep]
      have : (te - ts) / 16 * 16 = te - ts := by ring
      linarith [this]
    have hfl0 : 0 ≤ ⌊d⌋ := Int.floor_nonneg.mpr hd0
    have hfl16 : ⌊d⌋ < 16 := by
      have := Int.floor_le d
      have h2 : (⌊d⌋ : ℚ) < 16 := lt_of_le_of_lt this hd16
      exact_mod_cast h2
    set i : ℕ := ⌊d⌋.toNat with hi
    have hilt : i < 16 := by omega
    have hcast : ((i : ℚ)) = (⌊d⌋ : ℚ) := by
      rw [hi]
      exact_mod_cast congrArg Int.cast (Int.toNat_of_nonneg hfl0)
    have hibound : i < (pixSubFilters ts te s e).length := by
      rw [pixSubFilters_length]
      exact hilt
    refine ⟨(pixSubFilters ts te s e).get ⟨i, hibound⟩, List.get_mem _ _ _, ?_, ?_⟩
    · rw [pixSubFilters_get]
      have hle : (i : ℚ) ≤ d := by
        rw [hcast]
        exact Int.floor_le d
      have : (i : ℚ) * ((te - ts) / 16) ≤ d * ((te - ts) / 16) :=
        mul_le_mul_of_nonneg_right hle hstep.le
      have hdt : d * ((te - ts) / 16) = t - ts :=
        div_mul_cancel₀ (t - ts) (ne_of_gt hstep)
      dsimp only
      linarith [hdt ▸ this]
    · rw [pixSubFilters_get]
      have hlt : d < (i : ℚ) + 1 := by
        rw [hcast]
        exact Int.lt_floor_add_one d
      have : d * ((te - ts) / 16) < ((i : ℚ) + 1) * ((te - ts) / 16) :=
        mul_lt_mul_of_pos_right hlt hstep
      have hdt : d * ((te - ts) / 16) = t - ts :=
        div_mul_cancel₀ (t - ts) (ne_of_gt hstep)
      dsimp only
      linarith [hdt ▸ this]
  · intro f hf
    obtain ⟨i, hi, rfl⟩ := (pixSubFilters_mem_iff ts te s e f).mp hf
    exact ⟨i, hi, rfl, rfl, rfl⟩
  · simp [pixelizeFilters, h]

/-- C4 witness (spec scenario): a pixelate effect from 2 s to 5 s with sizes
4 to 48 yields 16 contiguous equal windows covering the effect span. -/
theorem pixelate_sixteen_subfilters_witness :
    ((2 : ℚ) < 5) ∧
    (pixSubFilters 2 5 4 48).length = 16 ∧
    List.Chain' (fun f g => f.t1 = g.t0) (pixSubFilters 2 5 4 48) ∧
    (∀ t : ℚ, 2 ≤ t → t < 5 → ∃ f ∈ pixSubFilters 2 5 4 48, f.t0 ≤ t ∧ t ≤ f.t1) :=
  have hth := pixelate_sixteen_subfilters_cover 2 5 4 48 (by norm_num)
  ⟨by norm_num, hth.1, hth.2.2.2.2.1, hth.2.2.2.2.2.1⟩

/-- C5 counterexample: for the pixelate effect from 0 s to 2 s animating the
block size from 4 to 100, some sub-filter is active at the exact midpoint
time 1 s (`between` is inclusive), yet every sub-filter active there has a
block size differing from the interpolation midpoint 52 by 3, not ±1. -/
theorem pixelate_midpoint_offby_counterexample :
    (∃ f ∈ pixSubFilters 0 2 4 100, f.t0 ≤ (0 + 2) / 2 ∧ (0 + 2) / 2 ≤ f.t1) ∧
    ∀ f ∈ pixSubFilters 0 2 4 100, f.t0 ≤ (0 + 2) / 2 → (0 + 2) / 2 ≤ f.t1 →
      ¬(|(f.blockN : ℚ) - (4 + 100) / 2| ≤ 1) := by
  constructor
  · refine ⟨⟨0 + (7 : ℚ) * ((2 - 0) / 16), 0 + ((7 : ℚ) + 1) * ((2 - 0) / 16),
      max 2 (jsRound (4 + (100 - 4) * (((7 : ℚ) + 1/2) / 16)))⟩, ?_, by norm_num, by norm_num⟩
    rw [pixSubFilters_mem_iff]
    exact ⟨7, by norm_num, by push_cast; norm_num⟩
  · intro f hf h0 h1
    obtain ⟨i, hi, rfl⟩ := (pixSubFilters_mem_iff 0 2 4 100 f).mp hf
    dsimp only at h0 h1 ⊢
    have hle : (i : ℚ) ≤ 8 := by nlinarith [h0]
    have hge : (7 : ℚ) ≤ (i : ℚ) := by nlinarith [h1]
    have hin : i = 7 ∨ i = 8 := by
      have l1 : i ≤ 8 := by exact_mod_cast hle
      have l2 : 7 ≤ i := by exact_mod_cast hge
      omega
    rcases hin with rfl | rfl
    · have hb : jsRound (4 + (100 - 4) * ((((7 : ℕ) : ℚ) + 1/2) / 16)) = 49 := by
        unfold jsRound
        push_cast
        norm_num
      rw [hb, max_eq_right (by norm_num : (2 : ℤ) ≤ 49)]
      push_cast
      norm_num
    · have hb : jsRound (4 + (100 - 4) * ((((8 : ℕ) : ℚ) + 1/2) / 16)) = 55 := by
        unfold jsRound
        push_cast
        norm_num
      rw [hb, max_eq_right (by norm_num : (2 : ℤ) ≤ 55)]
      push_cast
      norm_num

/-- C5 (amended): for a pixelate effect with positive duration and both
block sizes at least 2, any sub-filter active at the exact midpoint time
`(timelineStart + timelineEnd)/2` has a block size within
`|endBlockSize - startBlockSize|/32 + 1/2` of the interpolation midpoint
`(startBlockSize + endBlockSize)/2`; this is within ±1 exactly when the
animated size range is at most 16. -/
theorem pixelate_midpoint_block_bound (ts te s e : ℚ) (h : ts < te)
    (hs : 2 ≤ s) (he : 2 ≤ e) :
    ∀ f ∈ pixSubFilters ts te s e,
      f.t0 ≤ (ts + te) / 2 → (ts + te) / 2 ≤ f.t1 →
      |(f.blockN : ℚ) - (s + e) / 2| ≤ |e - s| / 32 + 1/2 ∧
      (|e - s| ≤ 16 → |(f.blockN : ℚ) - (s + e) / 2| ≤ 1) := by
  intro f hf h0 h1
  obtain ⟨i, hi, rfl⟩ := (pixSubFilters_mem_iff ts te s e f).mp hf
  dsimp only at h0 h1 ⊢
  have hstep : 0 < (te - ts) / 16 := by
    apply div_pos <;> linarith
  have hle : (i : ℚ) ≤ 8 := by nlinarith [h0, hstep]
  have hge : (7 : ℚ) ≤ (i : ℚ) := by nlinarith [h1, hstep]
  have hin : i = 7 ∨ i = 8 := by
    have l1 : i ≤ 8 := by exact_mod_cast hle
    have l2 : 7 ≤ i := by exact_mod_cast hge
    omega
  have hmain : ∀ c : ℚ, c = 15/32 ∨ c = 17/32 →
      |(↑(max 2 (jsRound (s + (e - s) * c))) - (s + e) / 2 : ℚ)| ≤ |e - s| / 32 + 1/2 := by
    intro c hc
    have hc01 : 2 ≤ s + (e - s) * c := by
      rcases hc with rfl | rfl
      · nlinarith
      · nlinarith
    have h2r : (2 : ℤ) ≤ jsRound (s + (e - s) * c) := by
      have := jsRound_mono (show ((2 : ℤ) : ℚ) ≤ s + (e - s) * c by push_cast; linarith)
      rwa [jsRound_intCast] at this
    rw [max_eq_right h2r]
    have hclose := jsRound_close (s + (e - s) * c)
    have hmid : |s + (e - s) * c - (s + e) / 2| = |e - s| / 32 := by
      rcases hc with rfl | rfl
      · have : s + (e - s) * (15/32) - (s + e) / 2 = -((e - s) / 32) := by ring
        rw [this, abs_neg, abs_div]
        norm_num
      · have : s + (e - s) * (17/32) - (s + e) / 2 = (e - s) / 32 := by ring
        rw [this, abs_div]
        norm_num
    calc |(↑(jsRound (s + (e - s) * c)) - (s + e) / 2 : ℚ)|
        ≤ |(↑(jsRound (s + (e - s) * c)) - (s + (e - s) * c) : ℚ)| +
            |s + (e - s) * c - (s + e) / 2| := abs_sub_le _ _ _
      _ ≤ 1/2 + |e - s| / 32 := add_le_add hclose (le_of_eq hmid)
      _ = |e - s| / 32 + 1/2 := by ring
  have hbound : |(↑(max 2 (jsRound (s + (e - s) * (((i : ℚ) + 1/2) / 16)))) -
      (s + e) / 2 : ℚ)| ≤ |e - s| / 32 + 1/2 := by
    rcases hin with rfl | rfl
    · have : (((7 : ℕ) : ℚ) + 1/2) / 16 = 15/32 := by norm_num
      rw [this]
      exact hmain _ (Or.inl rfl)
    · have : (((8 : ℕ) : ℚ) + 1/2) / 16 = 17/32 := by norm_num
      rw [this]
      exact hmain _ (Or.inr rfl)
  refine ⟨hbound, fun hrange => ?_⟩
  have : |e - s| / 32 ≤ 1/2 := by linarith
  linarith [hbound]

/-- C5 witness: the spec's scenario effect (2 s to 5 s, sizes 4 to 48) obeys
the midpoint bound at every sub-filter active at 3.5 s. -/
theorem pixelate_midpoint_block_bound_witness :
    ((2 : ℚ) < 5) ∧ ((2 : ℚ) ≤ 4) ∧ ((2 : ℚ) ≤ 48) ∧
    ∀ f ∈ pixSubFilters 2 5 4 48,
      f.t0 ≤ (2 + 5) / 2 → (2 + 5) / 2 ≤ f.t1 →
      |(f.blockN : ℚ) - (4 + 48) / 2| ≤ |48 - 4| / 32 + 1/2 ∧
      (|(48 : ℚ) - 4| ≤ 16 → |(f.blockN : ℚ) - (4 + 48) / 2| ≤ 1) :=
  ⟨by norm_num, by norm_num, by norm_num,
    pixelate_midpoint_block_bound 2 5 4 48 (by norm_num) (by norm_num) (by norm_num)⟩

-- ── C1: output duration vs. max timelineEnd ──────────────────────────────────

theorem tilesFrom_sum (t : ℚ) (clips : List ExportClip) (h : tilesFrom t clips) :
    (clips.map segmentDuration).sum = lastTimelineEnd t clips - t := by
  induction clips generalizing t with
  | nil => simp [lastTimelineEnd]
  | cons c rest ih =>
    obtain ⟨hstart, hspan, hmin, hrest⟩ := h
    have hseg : segmentDuration c = c.timelineEnd - t := by
      unfold segmentDuration
      rw [max_eq_right (by linarith)]
      linarith
    simp only [List.map_cons, List.sum_cons, lastTimelineEnd]
    rw [hseg, ih c.timelineEnd hrest]
    ring

theorem tilesFrom_le_lastEnd (t : ℚ) (clips : List ExportClip) (h : tilesFrom t clips) :
    t ≤ lastTimelineEnd t clips := by
  induction clips generalizing t with
  | nil => simp [lastTimelineEnd]
  | cons c rest ih =>
    obtain ⟨hstart, hspan, hmin, hrest⟩ := h
    have h1 : t ≤ c.timelineEnd := by linarith
    exact le_trans h1 (ih c.timelineEnd hrest)

theorem tilesFrom_clipEnd_le (t : ℚ) (clips : List ExportClip) (h : tilesFrom t clips) :
    ∀ c ∈ clips, c.timelineEnd ≤ lastTimelineEnd t clips := by
  induction clips generalizing t with
  | nil => simp
  | cons c rest ih =>
    obtain ⟨hstart, hspan, hmin, hrest⟩ := h
    intro c2 hc2
    rcases List.mem_cons.mp hc2 with rfl | hm
    · exact tilesFrom_le_lastEnd c2.timelineEnd rest hrest
    · exact ih c.timelineEnd hrest c2 hm

theorem tilesFrom_lastEnd_mem (t : ℚ) (clips : List ExportClip) (hne : clips ≠ [])
    (h : tilesFrom t clips) :
    lastTimelineEnd t clips ∈ clips.map ExportClip.timelineEnd := by
  induction clips generalizing t with
  | nil => exact absurd rfl hne
  | cons c rest ih =>
    obtain ⟨hstart, hspan, hmin, hrest⟩ := h
    rcases hr : rest with _ | ⟨c2, rest2⟩
    · simp [lastTimelineEnd, hr]
    · rw [← hr]
      have hne2 : rest ≠ [] := by simp [hr]
      simp only [List.map_cons, lastTimelineEnd]
      exact List.mem_cons_of_mem _ (ih c.timelineEnd hne2 hrest)

theorem foldr_max_le_of_ub (L : List ℚ) (a : ℚ) (hub : ∀ x ∈ L, x ≤ a) (h0 : 0 ≤ a) :
    L.foldr max 0 ≤ a := by
  induction L with
  | nil => simpa using h0
  | cons x rest ih =>
    simp only [List.foldr_cons, max_le_iff]
    exact ⟨hub x (by simp), ih fun y hy => hub y (by simp [hy])⟩

theorem le_foldr_max_of_mem (L : List ℚ) (a : ℚ) (hmem : a ∈ L) :
    a ≤ L.foldr max 0 := by
  induction L with
  | nil => cases hmem
  | cons x rest ih =>
    simp only [List.foldr_cons]
    rcases List.mem_cons.mp hmem with rfl | hm
    · exact le_max_left _ _
    · exact le_trans (ih hm) (le_max_right _ _)

/-- C1 counterexample: a valid job — one clip with matching source and
timeline spans `[0,5)` — carrying a caption that ends at 10 s.  The code's
output video lasts 5 s (the sum of the trimmed segments; nothing extends the
video for captions), while max(timelineEnd) across clips, captions and
effects is 10 s. -/
theorem outputVideoDuration_ne_specMax_example :
    jobValid ⟨[⟨"a.mp4", 0, 5, 0, 5⟩], [], true,
        [⟨"late caption", .num 0, .num 10, 32, "white", "black", false, 85,
          none, none, none, none, none, none⟩], [], 1920, 1080, 30, 18⟩ ∧
    outputVideoDuration ⟨[⟨"a.mp4", 0, 5, 0, 5⟩], [], true,
        [⟨"late caption", .num 0, .num 10, 32, "white", "black", false, 85,
          none, none, none, none, none, none⟩], [], 1920, 1080, 30, 18⟩ = 5 ∧
    specMaxTimelineEnd ⟨[⟨"a.mp4", 0, 5, 0, 5⟩], [], true,
        [⟨"late caption", .num 0, .num 10, 32, "white", "black", false, 85,
          none, none, none, none, none, none⟩], [], 1920, 1080, 30, 18⟩ = 10 ∧
    outputVideoDuration ⟨[⟨"a.mp4", 0, 5, 0, 5⟩], [], true,
        [⟨"late caption", .num 0, .num 10, 32, "white", "black", false, 85,
          none, none, none, none, none, none⟩], [], 1920, 1080, 30, 18⟩ ≠
      specMaxTimelineEnd ⟨[⟨"a.mp4", 0, 5, 0, 5⟩], [], true,
        [⟨"late caption", .num 0, .num 10, 32, "white", "black", false, 85,
          none, none, none, none, none, none⟩], [], 1920, 1080, 30, 18⟩ := by
  have h1 : outputVideoDuration ⟨[⟨"a.mp4", 0, 5, 0, 5⟩], [], true,
      [⟨"late caption", .num 0, .num 10, 32, "white", "black", false, 85,
        none, none, none, none, none, none⟩], [], 1920, 1080, 30, 18⟩ = 5 := by
    norm_num [outputVideoDuration, segmentDuration, max_def]
  have h2 : specMaxTimelineEnd ⟨[⟨"a.mp4", 0, 5, 0, 5⟩], [], true,
      [⟨"late caption", .num 0, .num 10, 32, "white", "black", false, 85,
        none, none, none, none, none, none⟩], [], 1920, 1080, 30, 18⟩ = 10 := by
    norm_num [specMaxTimelineEnd, ExportClip.timelineEnd, JSNum.toQ, max_def]
  refine ⟨by decide, h1, h2, ?_⟩
  rw [h1, h2]
  norm_num

/-- C1 (amended): the output video duration is the sum over clips of
`max(0.01, sourceEnd - sourceStart)`; whenever the clips tile the timeline
contiguously from 0 with timeline spans equal to their source spans and no
caption or effect outlasts the final clip, it equals max(timelineEnd)
across all clips, captions and effects.  (Tiling is sufficient, not
necessary: mismatched spans can still happen to sum to the same total.) -/
theorem outputVideoDuration_eq_specMax_of_tiled (o : ExportJobOptions)
    (hne : o.clips ≠ []) (htile : tilesFrom 0 o.clips)
    (hcap : ∀ c ∈ o.captions, c.endTime.toQ ≤ lastTimelineEnd 0 o.clips)
    (heff : ∀ e ∈ o.effects, e.timelineEnd ≤ lastTimelineEnd 0 o.clips) :
    outputVideoDuration o = (o.clips.map segmentDuration).sum ∧
    outputVideoDuration o = lastTimelineEnd 0 o.clips ∧
    outputVideoDuration o = specMaxTimelineEnd o := by
  have hsum := tilesFrom_sum 0 o.clips htile
  have h1 : outputVideoDuration o = lastTimelineEnd 0 o.clips := by
    unfold outputVideoDuration
    rw [hsum]
    ring
  refine ⟨rfl, h1, ?_⟩
  rw [h1]
  unfold specMaxTimelineEnd
  refine (le_antisymm ?_ ?_).symm
  · apply foldr_max_le_of_ub
    · intro x hx
      rcases List.mem_append.mp hx with hx1 | hxe
      · rcases List.mem_append.mp hx1 with hxc | hxcap
        · obtain ⟨c, hc, rfl⟩ := List.mem_map.mp hxc
          exact tilesFrom_clipEnd_le 0 o.clips htile c hc
        · obtain ⟨c, hc, rfl⟩ := List.mem_map.mp hxcap
          exact hcap c hc
      · obtain ⟨e, he, rfl⟩ := List.mem_map.mp hxe
        exact heff e he
    · exact tilesFrom_le_lastEnd 0 o.clips htile
  · apply le_foldr_max_of_mem
    exact List.mem_append_left _ (List.mem_append_left _
      (tilesFrom_lastEnd_mem 0 o.clips hne htile))

/-- C1 witness: a tiled one-clip job whose caption ends before the clip does
has output duration equal to max(timelineEnd). -/
theorem outputVideoDuration_eq_specMax_witness :
    (⟨[⟨"a.mp4", 0, 5, 0, 5⟩], [], true,
        [⟨"early caption", .num 0, .num 4, 32, "white", "black", false, 85,
          none, none, none, none, none, none⟩], [], 1920, 1080, 30, 18⟩ :
      ExportJobOptions).clips ≠ [] ∧
    tilesFrom 0 [(⟨"a.mp4", 0, 5, 0, 5⟩ : ExportClip)] ∧
    outputVideoDuration ⟨[⟨"a.mp4", 0, 5, 0, 5⟩], [], true,
        [⟨"early caption", .num 0, .num 4, 32, "white", "black", false, 85,
          none, none, none, none, none, none⟩], [], 1920, 1080, 30, 18⟩ =
      specMaxTimelineEnd ⟨[⟨"a.mp4", 0, 5, 0, 5⟩], [], true,
        [⟨"early caption", .num 0, .num 4, 32, "white", "black", false, 85,
          none, none, none, none, none, none⟩], [], 1920, 1080, 30, 18⟩ :=
  ⟨by decide, by norm_num [tilesFrom],
    (outputVideoDuration_eq_specMax_of_tiled _ (by decide) (by norm_num [tilesFrom])
      (by
        intro c hc
        simp only [List.mem_singleton] at hc
        subst hc
        norm_num [JSNum.toQ, lastTimelineEnd])
      (by simp)).2.2⟩
